import Mathlib

/-!
Verification development for the anchore-engine excerpt:
  * `anchore_engine/db/entities/upgrade.py` — the versioned DB migration runner
    (`get_versions`, `do_upgrade`, `do_upgrade_success`, `run_upgrade`,
    the `upgrade_functions` step table);
  * `anchore_engine/apis/authorization.py` — the `DbAuthorizationHandler.requires`
    decorator (its `inner_wrapper` exception ladder).

The embedding mirrors the Python source.  Version strings are modelled by their
`StrictVersion` parse (a triple of naturals compared lexicographically; every
version string appearing in the module is a plain `major.minor.patch`).
Database effects (migration function calls, the version-record upsert, the
advisory lock) are recorded in an explicit event trace; a raised Python
exception is an `Except.error` value.
-/

namespace Anchore

/-- The `StrictVersion` parse of a `major.minor.patch` version string,
compared lexicographically (as `distutils.version.StrictVersion` does). -/
structure SV where
  major : Nat
  minor : Nat
  patch : Nat
deriving DecidableEq, Repr

/-- Boolean test `StrictVersion(a) < StrictVersion(b)`. -/
def SV.ltb (a b : SV) : Bool :=
  decide (a.major < b.major ∨ (a.major = b.major ∧
    (a.minor < b.minor ∨ (a.minor = b.minor ∧ a.patch < b.patch))))

/-- Boolean test `StrictVersion(a) <= StrictVersion(b)`. -/
def SV.leb (a b : SV) : Bool := ! SV.ltb b a

theorem SV.ltb_iff (a b : SV) : SV.ltb a b = true ↔
    (a.major < b.major ∨ (a.major = b.major ∧
      (a.minor < b.minor ∨ (a.minor = b.minor ∧ a.patch < b.patch)))) := by
  simp [SV.ltb]

theorem SV.leb_iff (a b : SV) : SV.leb a b = true ↔ SV.ltb b a = false := by
  simp [SV.leb]

theorem SV.ltb_asymm {a b : SV} (h : SV.ltb a b = true) : SV.ltb b a = false := by
  rw [SV.ltb_iff] at h
  simp only [SV.ltb, decide_eq_false_iff_not]
  omega

theorem SV.ltb_ne {a b : SV} (h : SV.ltb a b = true) : a ≠ b := by
  rw [SV.ltb_iff] at h
  intro he
  subst he
  omega

theorem SV.ltb_of_leb_of_ltb {a b c : SV} (h1 : SV.leb a b = true)
    (h2 : SV.ltb b c = true) : SV.ltb a c = true := by
  rw [SV.leb_iff] at h1
  rw [SV.ltb_iff] at h2 ⊢
  simp only [SV.ltb, decide_eq_false_iff_not] at h1
  omega

theorem SV.ltb_of_ltb_of_leb {a b c : SV} (h1 : SV.ltb a b = true)
    (h2 : SV.leb b c = true) : SV.ltb a c = true := by
  rw [SV.leb_iff] at h2
  rw [SV.ltb_iff] at h1 ⊢
  simp only [SV.ltb, decide_eq_false_iff_not] at h2
  omega

theorem SV.leb_of_ltb {a b : SV} (h : SV.ltb a b = true) : SV.leb a b = true := by
  rw [SV.leb_iff]
  exact SV.ltb_asymm h

theorem SV.ltb_irrefl (a : SV) : SV.ltb a a = false := by
  simp only [SV.ltb, decide_eq_false_iff_not]
  omega

theorem SV.leb_refl (a : SV) : SV.leb a a = true := by
  rw [SV.leb_iff]
  exact SV.ltb_irrefl a

theorem SV.leb_antisymm {a b : SV} (h1 : SV.leb a b = true)
    (h2 : SV.leb b a = true) : a = b := by
  rw [SV.leb_iff] at h1 h2
  simp only [SV.ltb, decide_eq_false_iff_not] at h1 h2
  cases a
  cases b
  simp_all
  omega

theorem SV.leb_trans {a b c : SV} (h1 : SV.leb a b = true)
    (h2 : SV.leb b c = true) : SV.leb a c = true := by
  rw [SV.leb_iff] at h1 h2 ⊢
  simp only [SV.ltb, decide_eq_false_iff_not] at h1 h2 ⊢
  omega

theorem SV.leb_of_ltb_false {a b : SV} (h : SV.ltb a b = false) :
    SV.leb b a = true := by
  rw [SV.leb_iff]
  exact h

/-- A migration function is identified by its Python name
(`fn.__name__` in the source). -/
abbrev FnId := String

/-- An entry of `upgrade_functions`: a `(from_version, to_version)` pair and the
ordered list of migration functions declared for that range. -/
abbrev Step := (SV × SV) × List FnId

/-- A row of the version record: the dict with keys
`service_version` and `db_version` (both valid version strings). -/
structure VersionRec where
  service_version : SV
  db_version : SV
deriving DecidableEq, Repr

/-- Result of the `do_upgrade` step loop: the migration functions that were
invoked in order, the final value of the `db_current` cursor, and the error a
migration function raised, if any. -/
structure LoopResult (E : Type) where
  trace : List FnId
  cursor : SV
  err : Option E
deriving DecidableEq, Repr

/-- Module-level flag `upgrade_enabled = True`. -/
def upgrade_enabled : Bool := true

/-- Module-level constant `upgrade_lock_namespace = 1`. -/
def upgrade_lock_namespace : Nat := 1

/-- Module-level constant `my_module_upgrade_id = 1`. -/
def my_module_upgrade_id : Nat := 1

/-- Run the ordered function list of one step
(`for fn in functions_to_run: fn()`).  Each function either succeeds
(`env f = none`) or raises an error value (`env f = some e`); the raised error
aborts the list and is re-raised (`raise e`).  Returns the functions that were
invoked, in order, and the error if one was raised. -/
def runFns (env : FnId → Option E) : List FnId → List FnId × Option E
  | [] => ([], none)
  | f :: fs =>
    match env f with
    | some e => ([f], some e)
    | none =>
      let r := runFns env fs
      (f :: r.1, r.2)

/-- The step loop of `do_upgrade`
(`for version_tuple, functions_to_run in upgrade_functions: ...`):
break once `db_current >= db_target`, skip a step with `db_to <= db_current`,
otherwise run its functions and advance `db_current = db_to`. -/
def runSteps (env : FnId → Option E) (db_target : SV) (db_current : SV) :
    List Step → LoopResult E
  | [] => ⟨[], db_current, none⟩
  | ((_db_from, db_to), functions_to_run) :: rest =>
    if SV.leb db_target db_current then
      -- finish if we've reached the target version
      ⟨[], db_current, none⟩
    else if SV.leb db_to db_current then
      -- Upgrade code is for older version, skip it.
      runSteps env db_target db_current rest
    else
      match runFns env functions_to_run with
      | (tr, some e) => ⟨tr, db_current, some e⟩
      | (tr, none) =>
        let r := runSteps env db_target db_to rest
        ⟨tr ++ r.trace, r.cursor, r.err⟩

/-- The distinct exceptions the upgrade module can raise. -/
inductive Err (E : Type) where
  /-- the `TableNotFoundError('anchore table not found')` raised by
  `get_versions`. -/
  | tableNotFound
  /-- the generic `"Cannot find existing/populated anchore DB tables ..."`
  exception from `get_versions`. -/
  | dbError
  /-- the `"cannot code version ..."` exception from `run_upgrade`. -/
  | noCodeVersion
  /-- the `"DB downgrade not supported"` exception from `do_upgrade`. -/
  | downgrade
  /-- the `"Upgrade routine from module returned false ..."` exception from
  `run_upgrade`. -/
  | moduleReturnedFalse
  /-- an error raised by a migration function, re-raised unchanged. -/
  | stepError (e : E)
deriving DecidableEq, Repr

/-- Model of `do_upgrade(inplace, incode)`: raise on downgrade, otherwise run the step
loop when the db versions differ (and `upgrade_enabled`), then `return True`.
Returns the invoked-function trace together with the outcome. -/
def do_upgrade (env : FnId → Option E) (steps : List Step)
    (inplace incode : VersionRec) : List FnId × Except (Err E) Bool :=
  if SV.ltb incode.db_version inplace.db_version then
    -- StrictVersion(inplace['db_version']) > StrictVersion(incode['db_version'])
    ([], .error .downgrade)
  else
    let loop : LoopResult E :=
      if inplace.db_version ≠ incode.db_version then
        if upgrade_enabled then
          runSteps env incode.db_version inplace.db_version steps
        else ⟨[], inplace.db_version, none⟩
      else ⟨[], inplace.db_version, none⟩
    match loop.err with
    | some e => (loop.trace, .error (.stepError e))
    | none => (loop.trace, .ok true)

/-- Observable events of one `run_upgrade` call. -/
inductive Event where
  /-- enter `db_application_lock(engine, (namespace, lock_id))`. -/
  | acquireLock (ns id : Nat)
  /-- leave the advisory-lock context manager. -/
  | releaseLock (ns id : Nat)
  /-- a migration function call `fn()`. -/
  | runFn (f : FnId)
  /-- the `db_anchore.add(service_version, db_version, ...)` upsert performed
  by `do_upgrade_success`. -/
  | writeVersions (service_version db_version : SV)
deriving DecidableEq, Repr

/-- What `db_anchore.get` finds in the connected database. -/
inductive DbState where
  /-- the anchore table is missing: `is_table_not_found(err)` holds. -/
  | tableMissing
  /-- some other exception while reading the version table. -/
  | otherError
  /-- the table is readable; `none` models an empty result
  (no version record, `db_versions.get('db_version') is None`). -/
  | records (v : Option VersionRec)
deriving DecidableEq, Repr

/-- The inputs a `run_upgrade` call depends on: the code-declared versions
(`anchore_engine.version`; `code_db_version = none` models a falsy
`version.db_version`), the state of the database's version table, and the
outcome of each migration function. -/
structure Env (E : Type) where
  code_service_version : SV
  code_db_version : Option SV
  db : DbState
  fnResult : FnId → Option E

/-- Model of `get_versions()`: reading the code versions always succeeds; reading the
db versions raises `TableNotFoundError` when the table is absent and a generic
exception on any other database error. -/
def get_versions (env : Env E) : Except (Err E) (Option VersionRec) :=
  match env.db with
  | .tableMissing => .error .tableNotFound
  | .otherError => .error .dbError
  | .records v => .ok v

/-- Model of `do_upgrade_success(db_versions, code_versions)`: a single
`db_anchore.add` upsert of the code versions, then `return True`. -/
def do_upgrade_success (incode : VersionRec) : List Event × Bool :=
  ([Event.writeVersions incode.service_version incode.db_version], true)

/-- Model of `run_upgrade()`: inside `upgrade_context` (advisory lock, then
`get_versions`), compare `code_db_version` with `running_db_version` and
either no-op (returning Python `None`, modelled `Except.ok none`), or run
`do_upgrade` followed by `do_upgrade_success` (returning `True`, modelled
`Except.ok (some true)`).  Exceptions propagate; the lock is released on every
exit path.  Returns the event trace together with the outcome. -/
def run_upgrade (env : Env E) (steps : List Step) :
    List Event × Except (Err E) (Option Bool) :=
  let lockE := Event.acquireLock upgrade_lock_namespace my_module_upgrade_id
  let unlockE := Event.releaseLock upgrade_lock_namespace my_module_upgrade_id
  match get_versions env with
  | .error e => ([lockE, unlockE], .error e)
  | .ok db_versions =>
    match env.code_db_version with
    | none =>
      -- if not code_db_version: raise Exception("cannot code version ...")
      ([lockE, unlockE], .error .noCodeVersion)
    | some code_db_version =>
      match db_versions with
      | none =>
        -- running_db_version is None: db not initialized, exit normally
        ([lockE, unlockE], .ok none)
      | some running =>
        if running.db_version = code_db_version then
          -- versions match, nothing to do (falls through, returns None)
          ([lockE, unlockE], .ok none)
        else
          match do_upgrade env.fnResult steps running
              ⟨env.code_service_version, code_db_version⟩ with
          | (tr, .error e) =>
            (lockE :: tr.map Event.runFn ++ [unlockE], .error e)
          | (tr, .ok rc) =>
            if rc then
              let s := do_upgrade_success ⟨env.code_service_version, code_db_version⟩
              (lockE :: tr.map Event.runFn ++ s.1 ++ [unlockE], .ok (some s.2))
            else
              (lockE :: tr.map Event.runFn ++ [unlockE], .error .moduleReturnedFalse)

/-- The declared step table `upgrade_functions` of the module. -/
def upgrade_functions : List Step :=
  [ ((⟨0,0,1⟩, ⟨0,0,2⟩), ["db_upgrade_001_002"]),
    ((⟨0,0,2⟩, ⟨0,0,3⟩), ["db_upgrade_002_003"]),
    ((⟨0,0,3⟩, ⟨0,0,4⟩), ["db_upgrade_003_004"]),
    ((⟨0,0,4⟩, ⟨0,0,5⟩), ["db_upgrade_004_005"]),
    ((⟨0,0,5⟩, ⟨0,0,6⟩), ["db_upgrade_005_006"]) ]

/-- States that a step table is a contiguous ascending chain starting at `v`:
each step's from-version equals the previous step's to-version (the first
step's from-version is `v`) and each range is strictly ascending.  The
declared `upgrade_functions` table is such a chain from `0.0.1`. -/
def chainFrom (v : SV) : List Step → Bool
  | [] => true
  | ((db_from, db_to), _) :: rest =>
    db_from == v && SV.ltb db_from db_to && chainFrom db_to rest

/-- States that the version `x` does not lie strictly inside any step's
`(from_version, to_version)` range. -/
def straddleFree (x : SV) : List Step → Bool
  | [] => true
  | ((db_from, db_to), _) :: rest =>
    !(SV.ltb db_from x && SV.ltb x db_to) && straddleFree x rest

theorem runSteps_cons_skip (env : FnId → Option E) {db_target db_current db_to : SV}
    (hb : ¬ SV.leb db_target db_current = true)
    (hs : SV.leb db_to db_current = true) (db_from : SV) (fns : List FnId)
    (rest : List Step) :
    runSteps env db_target db_current (((db_from, db_to), fns) :: rest) =
      runSteps env db_target db_current rest := by
  simp [runSteps, hb, hs]

theorem runSteps_cons_fail (env : FnId → Option E) {db_target db_current db_to : SV}
    {tr : List FnId} {e : E}
    (hb : ¬ SV.leb db_target db_current = true)
    (hs : ¬ SV.leb db_to db_current = true) (db_from : SV) {fns : List FnId}
    (hfr : runFns env fns = (tr, some e)) (rest : List Step) :
    runSteps env db_target db_current (((db_from, db_to), fns) :: rest) =
      ⟨tr, db_current, some e⟩ := by
  simp [runSteps, hb, hs, hfr]

theorem runSteps_cons_run (env : FnId → Option E) {db_target db_current db_to : SV}
    {tr : List FnId}
    (hb : ¬ SV.leb db_target db_current = true)
    (hs : ¬ SV.leb db_to db_current = true) (db_from : SV) {fns : List FnId}
    (hfr : runFns env fns = (tr, none)) (rest : List Step) :
    runSteps env db_target db_current (((db_from, db_to), fns) :: rest) =
      ⟨tr ++ (runSteps env db_target db_to rest).trace,
       (runSteps env db_target db_to rest).cursor,
       (runSteps env db_target db_to rest).err⟩ := by
  simp [runSteps, hb, hs, hfr]

theorem chainFrom_from_ge :
    ∀ (steps : List Step) (v : SV), chainFrom v steps = true →
      ∀ s ∈ steps, SV.leb v s.1.1 = true := by
  intro steps
  induction steps with
  | nil => intro v _ s hs; cases hs
  | cons hd rest ih =>
    obtain ⟨⟨db_from, db_to⟩, fns⟩ := hd
    intro v hchain s hs
    simp only [chainFrom, Bool.and_eq_true, beq_iff_eq] at hchain
    obtain ⟨⟨hfv, hft⟩, hrest⟩ := hchain
    subst hfv
    rcases List.mem_cons.mp hs with h | h
    · subst h
      exact SV.leb_refl _
    · have h1 : SV.leb db_to s.1.1 = true := ih db_to hrest s h
      exact SV.leb_trans (SV.leb_of_ltb hft) h1

theorem chainFrom_from_lt_to :
    ∀ (steps : List Step) (v : SV), chainFrom v steps = true →
      ∀ s ∈ steps, SV.ltb s.1.1 s.1.2 = true := by
  intro steps
  induction steps with
  | nil => intro v _ s hs; cases hs
  | cons hd rest ih =>
    obtain ⟨⟨db_from, db_to⟩, fns⟩ := hd
    intro v hchain s hs
    simp only [chainFrom, Bool.and_eq_true, beq_iff_eq] at hchain
    obtain ⟨⟨hfv, hft⟩, hrest⟩ := hchain
    rcases List.mem_cons.mp hs with h | h
    · subst h; exact hft
    · exact ih db_to hrest s h

theorem straddleFree_of_ge {x : SV} :
    ∀ (steps : List Step), (∀ s ∈ steps, SV.leb x s.1.1 = true) →
      straddleFree x steps = true := by
  intro steps
  induction steps with
  | nil => intro _; rfl
  | cons hd rest ih =>
    obtain ⟨⟨db_from, db_to⟩, fns⟩ := hd
    intro hge
    have h1 : SV.leb x db_from = true := hge _ (List.mem_cons_self _ _)
    rw [SV.leb_iff] at h1
    simp only [straddleFree, Bool.and_eq_true, Bool.not_eq_true']
    refine ⟨?_, ih fun s hs => hge s (List.mem_cons_of_mem _ hs)⟩
    simp [h1]

theorem chainFrom_straddleFree {v : SV} {steps : List Step}
    (h : chainFrom v steps = true) : straddleFree v steps = true :=
  straddleFree_of_ge steps (chainFrom_from_ge steps v h)

theorem runFns_ok (env : FnId → Option E) :
    ∀ (fns : List FnId), (∀ f ∈ fns, env f = none) →
      runFns env fns = (fns, none) := by
  intro fns
  induction fns with
  | nil => intro _; rfl
  | cons f fs ih =>
    intro h
    have hf : env f = none := h f (List.mem_cons_self _ _)
    have hfs := ih fun g hg => h g (List.mem_cons_of_mem _ hg)
    simp [runFns, hf, hfs]

theorem runFns_fail (env : FnId → Option E) {e : E} :
    ∀ (pre : List FnId) (fk : FnId) (post : List FnId),
      (∀ f ∈ pre, env f = none) → env fk = some e →
      runFns env (pre ++ fk :: post) = (pre ++ [fk], some e) := by
  intro pre
  induction pre with
  | nil =>
    intro fk post _ hfk
    simp [runFns, hfk]
  | cons f fs ih =>
    intro fk post h hfk
    have hf : env f = none := h f (List.mem_cons_self _ _)
    have hfs := ih fk post (fun g hg => h g (List.mem_cons_of_mem _ hg)) hfk
    simp [runFns, hf, hfs]

theorem runSteps_break (env : FnId → Option E) {db_target db_current : SV}
    (h : SV.leb db_target db_current = true) :
    ∀ (steps : List Step),
      runSteps env db_target db_current steps = ⟨[], db_current, none⟩ := by
  intro steps
  cases steps with
  | nil => rfl
  | cons hd rest =>
    obtain ⟨⟨db_from, db_to⟩, fns⟩ := hd
    simp [runSteps, h]

theorem runSteps_ok_err (env : FnId → Option E) (db_target : SV) :
    ∀ (steps : List Step) (db_current : SV), (∀ f, env f = none) →
      (runSteps env db_target db_current steps).err = none := by
  intro steps
  induction steps with
  | nil => intro cur _; rfl
  | cons hd rest ih =>
    obtain ⟨⟨db_from, db_to⟩, fns⟩ := hd
    intro cur henv
    have hfns : runFns env fns = (fns, none) := runFns_ok env fns fun f _ => henv f
    by_cases hb : SV.leb db_target cur = true
    · simp [runSteps, hb]
    · by_cases hs : SV.leb db_to cur = true
      · simp only [runSteps, hb, if_false, hs, if_true]
        exact ih cur henv
      · simp only [runSteps, hb, if_false, hs, hfns]
        exact ih db_to henv

theorem runSteps_cursor_lt (env : FnId → Option E) (db_target : SV) :
    ∀ (steps : List Step) (db_current : SV),
      SV.ltb db_current db_target = true →
      (∀ s ∈ steps, SV.ltb s.1.2 db_target = true) →
      SV.ltb (runSteps env db_target db_current steps).cursor db_target = true := by
  intro steps
  induction steps with
  | nil => intro cur hc _; exact hc
  | cons hd rest ih =>
    obtain ⟨⟨db_from, db_to⟩, fns⟩ := hd
    intro cur hc hto
    have hdbto : SV.ltb db_to db_target = true := hto _ (List.mem_cons_self _ _)
    have hrest := fun s hs => hto s (List.mem_cons_of_mem _ hs)
    by_cases hb : SV.leb db_target cur = true
    · simp [runSteps, hb, hc]
    · by_cases hs : SV.leb db_to cur = true
      · simp only [runSteps, hb, if_false, hs, if_true]
        exact ih cur hc hrest
      · cases hfr : runFns env fns with
        | mk tr r =>
          cases r with
          | some e => simp [runSteps, hb, hs, hfr, hc]
          | none =>
            simp only [runSteps, hb, if_false, hs, hfr]
            exact ih db_to hdbto hrest

theorem runSteps_chain_trace (env : FnId → Option E) (c : SV)
    (henv : ∀ f, env f = none) :
    ∀ (steps : List Step) (v d : SV),
      chainFrom v steps = true →
      SV.leb v d = true →
      straddleFree d steps = true →
      straddleFree c steps = true →
      (runSteps env c d steps).trace =
        (steps.filter (fun s => SV.leb d s.1.1 && SV.leb s.1.2 c)).flatMap
          (fun s => s.2) ∧
      (runSteps env c d steps).err = none := by
  intro steps
  induction steps with
  | nil => intro v d _ _ _ _; exact ⟨rfl, rfl⟩
  | cons hd rest ih =>
    obtain ⟨⟨db_from, db_to⟩, fns⟩ := hd
    intro v d hchain hvd hsd hsc
    simp only [chainFrom, Bool.and_eq_true, beq_iff_eq] at hchain
    obtain ⟨⟨hfv, hft⟩, hrest⟩ := hchain
    subst hfv
    simp only [straddleFree, Bool.and_eq_true, Bool.not_eq_true'] at hsd hsc
    obtain ⟨hsd1, hsd2⟩ := hsd
    obtain ⟨hsc1, hsc2⟩ := hsc
    have hstraddle_d : straddleFree d rest = true := hsd2
    have hstraddle_c : straddleFree c rest = true := hsc2
    by_cases hbreak : SV.leb c d = true
    · -- the loop breaks immediately: db_current >= db_target
      rw [runSteps_break env hbreak]
      refine ⟨?_, rfl⟩
      have hnil : ((((db_from, db_to), fns) :: rest).filter
          (fun s => SV.leb d s.1.1 && SV.leb s.1.2 c)) = [] := by
        rw [List.filter_eq_nil_iff]
        intro s hs
        have hlt : SV.ltb s.1.1 s.1.2 = true :=
          chainFrom_from_lt_to _ db_from (by
            simp [chainFrom, hft, hrest]) s hs
        simp only [Bool.and_eq_true, not_and]
        intro hds
        have hcs : SV.leb c s.1.1 = true := SV.leb_trans hbreak hds
        have hcto : SV.ltb c s.1.2 = true := SV.ltb_of_leb_of_ltb hcs hlt
        rw [SV.leb_iff]
        simp [hcto]
      rw [hnil]
      rfl
    · have hdc : SV.ltb d c = true := by
        rw [SV.leb_iff] at hbreak
        simp only [Bool.not_eq_false] at hbreak
        exact hbreak
      by_cases hskip : SV.leb db_to d = true
      · -- the step is for an older version and is skipped
        have hrun : runSteps env c d (((db_from, db_to), fns) :: rest) =
            runSteps env c d rest := by
          simp [runSteps, hbreak, hskip]
        have hhd : (SV.leb d db_from && SV.leb db_to c) = false := by
          have hfd : SV.ltb db_from d = true := SV.ltb_of_ltb_of_leb hft hskip
          have : SV.leb d db_from = false := by
            simp only [SV.leb, hfd, Bool.not_true]
          simp [this]
        rw [hrun, List.filter_cons_of_neg (by simp [hhd])]
        exact ih db_to d hrest hskip hstraddle_d hstraddle_c
      · -- the step executes and the cursor advances to db_to
        have hdt : SV.ltb d db_to = true := by
          rw [SV.leb_iff] at hskip
          simp only [Bool.not_eq_false] at hskip
          exact hskip
        have hfd : SV.ltb db_from d = false := by
          by_contra hne
          simp only [Bool.not_eq_false] at hne
          rw [hne, hdt] at hsd1
          simp at hsd1
        have hdf : SV.leb d db_from = true := by
          simp only [SV.leb, hfd, Bool.not_false]
        have hfc : SV.ltb db_from c = true := SV.ltb_of_leb_of_ltb hvd hdc
        have hct : SV.ltb c db_to = false := by
          by_contra hne
          simp only [Bool.not_eq_false] at hne
          rw [hfc, hne] at hsc1
          simp at hsc1
        have htc : SV.leb db_to c = true := by
          simp only [SV.leb, hct, Bool.not_false]
        have hfns : runFns env fns = (fns, none) := runFns_ok env fns fun f _ => henv f
        have hrun : runSteps env c d (((db_from, db_to), fns) :: rest) =
            ⟨fns ++ (runSteps env c db_to rest).trace,
             (runSteps env c db_to rest).cursor,
             (runSteps env c db_to rest).err⟩ := by
          simp [runSteps, hbreak, hskip, hfns]
        obtain ⟨ih1, ih2⟩ := ih db_to db_to hrest (SV.leb_refl db_to)
          (chainFrom_straddleFree hrest) hstraddle_c
        have hfiltereq : rest.filter (fun s => SV.leb db_to s.1.1 && SV.leb s.1.2 c) =
            rest.filter (fun s => SV.leb d s.1.1 && SV.leb s.1.2 c) := by
          refine List.filter_congr fun s hs => ?_
          have h1 : SV.leb db_to s.1.1 = true := chainFrom_from_ge rest db_to hrest s hs
          have h2 : SV.leb d s.1.1 = true :=
            SV.leb_of_ltb (SV.ltb_of_ltb_of_leb hdt h1)
          rw [h1, h2]
        rw [hrun, List.filter_cons_of_pos (by simp [hdf, htc])]
        constructor
        · simp only [List.flatMap_cons]
          rw [ih1, hfiltereq]
        · exact ih2

theorem runSteps_append_err (env : FnId → Option E) (db_target : SV) :
    ∀ (l1 l2 : List Step) (cur : SV) (e : E),
      (runSteps env db_target cur l1).err = some e →
      runSteps env db_target cur (l1 ++ l2) = runSteps env db_target cur l1 := by
  intro l1
  induction l1 with
  | nil => intro l2 cur e h; cases h
  | cons hd rest ih =>
    obtain ⟨⟨db_from, db_to⟩, fns⟩ := hd
    intro l2 cur e h
    by_cases hb : SV.leb db_target cur = true
    · rw [runSteps_break env hb] at h
      cases h
    · by_cases hs : SV.leb db_to cur = true
      · rw [List.cons_append, runSteps_cons_skip env hb hs,
          runSteps_cons_skip env hb hs] at *
        exact ih l2 cur e h
      · cases hfr : runFns env fns with
        | mk tr r =>
          cases r with
          | some e2 =>
            rw [List.cons_append, runSteps_cons_fail env hb hs db_from hfr,
              runSteps_cons_fail env hb hs db_from hfr]
          | none =>
            rw [runSteps_cons_run env hb hs db_from hfr] at h
            rw [List.cons_append, runSteps_cons_run env hb hs db_from hfr,
              runSteps_cons_run env hb hs db_from hfr, ih l2 db_to e h]

theorem runSteps_append_ok (env : FnId → Option E) (db_target : SV) :
    ∀ (l1 l2 : List Step) (cur : SV),
      (runSteps env db_target cur l1).err = none →
      runSteps env db_target cur (l1 ++ l2) =
        ⟨(runSteps env db_target cur l1).trace ++
          (runSteps env db_target (runSteps env db_target cur l1).cursor l2).trace,
         (runSteps env db_target (runSteps env db_target cur l1).cursor l2).cursor,
         (runSteps env db_target (runSteps env db_target cur l1).cursor l2).err⟩ := by
  intro l1
  induction l1 with
  | nil => intro l2 cur _; simp [runSteps]
  | cons hd rest ih =>
    obtain ⟨⟨db_from, db_to⟩, fns⟩ := hd
    intro l2 cur herr
    by_cases hb : SV.leb db_target cur = true
    · rw [List.cons_append, runSteps_break env hb, runSteps_break env hb,
        runSteps_break env hb l2]
      rfl
    · by_cases hs : SV.leb db_to cur = true
      · rw [runSteps_cons_skip env hb hs] at herr
        rw [List.cons_append, runSteps_cons_skip env hb hs,
          runSteps_cons_skip env hb hs]
        exact ih l2 cur herr
      · cases hfr : runFns env fns with
        | mk tr r =>
          cases r with
          | some e2 =>
            rw [runSteps_cons_fail env hb hs db_from hfr] at herr
            cases herr
          | none =>
            rw [runSteps_cons_run env hb hs db_from hfr] at herr
            rw [List.cons_append, runSteps_cons_run env hb hs db_from hfr,
              runSteps_cons_run env hb hs db_from hfr, ih l2 db_to herr]
            simp [List.append_assoc]

theorem do_upgrade_downgrade (env : FnId → Option E) (steps : List Step)
    {inplace incode : VersionRec}
    (h : SV.ltb incode.db_version inplace.db_version = true) :
    do_upgrade env steps inplace incode = ([], .error .downgrade) := by
  simp [do_upgrade, h]

theorem do_upgrade_run (env : FnId → Option E) (steps : List Step)
    {inplace incode : VersionRec}
    (h1 : SV.ltb incode.db_version inplace.db_version = false)
    (h2 : inplace.db_version ≠ incode.db_version) :
    do_upgrade env steps inplace incode =
      ((runSteps env incode.db_version inplace.db_version steps).trace,
        match (runSteps env incode.db_version inplace.db_version steps).err with
        | some e => .error (.stepError e)
        | none => .ok true) := by
  simp only [do_upgrade, h1, Bool.false_eq_true, if_false, ne_eq, h2,
    not_false_eq_true, if_true, upgrade_enabled]
  cases (runSteps env incode.db_version inplace.db_version steps).err with
  | some e => rfl
  | none => rfl

theorem do_upgrade_equal (env : FnId → Option E) (steps : List Step)
    {inplace incode : VersionRec}
    (h2 : inplace.db_version = incode.db_version) :
    do_upgrade env steps inplace incode = ([], .ok true) := by
  simp [do_upgrade, h2, SV.ltb_irrefl]

/-- Helper: every non-raising path of `do_upgrade` ends in `ret = True`. -/
theorem do_upgrade_rc_true (env : FnId → Option E) (steps : List Step)
    (inplace incode : VersionRec) (tr : List FnId) (rc : Bool)
    (h : do_upgrade env steps inplace incode = (tr, .ok rc)) : rc = true := by
  by_cases hd : SV.ltb incode.db_version inplace.db_version = true
  · rw [do_upgrade_downgrade env steps hd] at h
    cases h
  · rw [Bool.not_eq_true] at hd
    by_cases he : inplace.db_version = incode.db_version
    · rw [do_upgrade_equal env steps he] at h
      cases h
      rfl
    · rw [do_upgrade_run env steps hd he] at h
      cases herr : (runSteps env incode.db_version inplace.db_version steps).err with
      | some e => rw [herr] at h; cases h
      | none =>
        rw [herr] at h
        cases h
        rfl

theorem run_upgrade_tableMissing (env : Env E) (steps : List Step)
    (h : env.db = .tableMissing) :
    run_upgrade env steps =
      ([Event.acquireLock upgrade_lock_namespace my_module_upgrade_id,
        Event.releaseLock upgrade_lock_namespace my_module_upgrade_id],
       .error .tableNotFound) := by
  simp [run_upgrade, get_versions, h]

theorem run_upgrade_otherError (env : Env E) (steps : List Step)
    (h : env.db = .otherError) :
    run_upgrade env steps =
      ([Event.acquireLock upgrade_lock_namespace my_module_upgrade_id,
        Event.releaseLock upgrade_lock_namespace my_module_upgrade_id],
       .error .dbError) := by
  simp [run_upgrade, get_versions, h]

theorem run_upgrade_noCode (env : Env E) (steps : List Step)
    {v : Option VersionRec} (h : env.db = .records v)
    (hc : env.code_db_version = none) :
    run_upgrade env steps =
      ([Event.acquireLock upgrade_lock_namespace my_module_upgrade_id,
        Event.releaseLock upgrade_lock_namespace my_module_upgrade_id],
       .error .noCodeVersion) := by
  simp [run_upgrade, get_versions, h, hc]

theorem run_upgrade_uninitialized (env : Env E) (steps : List Step)
    {cdb : SV} (h : env.db = .records none)
    (hc : env.code_db_version = some cdb) :
    run_upgrade env steps =
      ([Event.acquireLock upgrade_lock_namespace my_module_upgrade_id,
        Event.releaseLock upgrade_lock_namespace my_module_upgrade_id],
       .ok none) := by
  simp [run_upgrade, get_versions, h, hc]

theorem run_upgrade_equal (env : Env E) (steps : List Step)
    {cdb : SV} {running : VersionRec} (h : env.db = .records (some running))
    (hc : env.code_db_version = some cdb) (he : running.db_version = cdb) :
    run_upgrade env steps =
      ([Event.acquireLock upgrade_lock_namespace my_module_upgrade_id,
        Event.releaseLock upgrade_lock_namespace my_module_upgrade_id],
       .ok none) := by
  simp [run_upgrade, get_versions, h, hc, he]

theorem run_upgrade_do_fail (env : Env E) (steps : List Step)
    {cdb : SV} {running : VersionRec} {tr : List FnId} {e : Err E}
    (h : env.db = .records (some running))
    (hc : env.code_db_version = some cdb) (he : running.db_version ≠ cdb)
    (hdo : do_upgrade env.fnResult steps running
        ⟨env.code_service_version, cdb⟩ = (tr, .error e)) :
    run_upgrade env steps =
      (Event.acquireLock upgrade_lock_namespace my_module_upgrade_id ::
        tr.map Event.runFn ++
        [Event.releaseLock upgrade_lock_namespace my_module_upgrade_id],
       .error e) := by
  simp [run_upgrade, get_versions, h, hc, he, hdo]

theorem run_upgrade_do_ok (env : Env E) (steps : List Step)
    {cdb : SV} {running : VersionRec} {tr : List FnId}
    (h : env.db = .records (some running))
    (hc : env.code_db_version = some cdb) (he : running.db_version ≠ cdb)
    (hdo : do_upgrade env.fnResult steps running
        ⟨env.code_service_version, cdb⟩ = (tr, .ok true)) :
    run_upgrade env steps =
      (Event.acquireLock upgrade_lock_namespace my_module_upgrade_id ::
        tr.map Event.runFn ++
        [Event.writeVersions env.code_service_version cdb,
         Event.releaseLock upgrade_lock_namespace my_module_upgrade_id],
       .ok (some true)) := by
  simp [run_upgrade, get_versions, h, hc, he, hdo, do_upgrade_success]

/-!
Model of `DbAuthorizationHandler.requires` / `inner_wrapper` from
`anchore_engine/apis/authorization.py`.  A Python exception is classified by
which clause of the wrapper's `except` ladder catches it.
-/

/-- Classification of a raised exception by the wrapper's `except` ladder:
an `UnauthorizedError`, an `UnauthenticatedError`, or any other `Exception`. -/
inductive ExcKind where
  | unauthorized
  | unauthenticated
  | otherExc
deriving DecidableEq, Repr

/-- Outcome of a Python call: a returned value or a raised exception. -/
inductive PyResult (α : Type) where
  | ok (a : α)
  | exc (k : ExcKind)
deriving DecidableEq, Repr

/-- Outcome of `self.authenticate(request_proxy)` as observed by the wrapper:
the call raises, returns `None` (the account-lookup failure path, making the
subsequent `identity.username` attribute access raise), returns an
`IdentityContext` with a falsy `username` (the anonymous path), or returns an
identity carrying a username. -/
inductive AuthcOutcome where
  | raises
  | returnsNone
  | identityNoUsername
  | identityWith (username : String)
deriving DecidableEq, Repr

/-- The collaborator outcomes one invocation of the wrapped endpoint depends
on: entering `Yosai.context`, `self.authenticate`, binding the permission
list (`perm.bind(...)` loaders may raise), `self.authorize`, and the wrapped
function `f` itself. -/
structure AuthEnv (α : Type) where
  ctxEnter : Option ExcKind
  authc : AuthcOutcome
  bindExc : Option ExcKind
  authz : Option ExcKind
  wrapped : PyResult α

/-- The body guarded by the wrapper's outer `try`: authenticate (any failure
is re-raised as `UnauthenticatedError` by the inner bare `except`), bind the
permission list, authorize (any non-`UnauthorizedError` failure is re-raised
as `UnauthorizedError`), then call the wrapped function. -/
def protected_body (env : AuthEnv α) : PyResult α :=
  match env.ctxEnter with
  | some k => .exc k
  | none =>
    match env.authc with
    | .raises => .exc .unauthenticated
    | .returnsNone => .exc .unauthenticated
    | .identityNoUsername => .exc .unauthenticated
    | .identityWith _ =>
      match env.bindExc with
      | some k => .exc k
      | none =>
        match env.authz with
        | some .unauthorized => .exc .unauthorized
        | some .unauthenticated => .exc .unauthorized
        | some .otherExc => .exc .unauthorized
        | none => env.wrapped

/-- Result of the wrapper as seen by its caller: the wrapped function's value
or an HTTP error response (`make_response_error(..., in_httpcode=c), c`). -/
inductive WrapperResult (α : Type) where
  | value (a : α)
  | httpError (code : Nat)
deriving DecidableEq, Repr

/-- The wrapper's `except` ladder: `UnauthorizedError` becomes a 403 response,
`UnauthenticatedError` a 401 response, and any other `Exception` a 500
response. -/
def excToResponse (k : ExcKind) : WrapperResult α :=
  match k with
  | .unauthorized => .httpError 403
  | .unauthenticated => .httpError 401
  | .otherExc => .httpError 500

/-- Model of `inner_wrapper`: run the protected body and map any raised
exception through the `except` ladder. -/
def inner_wrapper (env : AuthEnv α) : WrapperResult α :=
  match protected_body env with
  | .ok a => .value a
  | .exc k => excToResponse k

/-!
Claim theorems.
-/

/-- Helper: if `run_upgrade` raises, the version record is never written. -/
theorem run_upgrade_error_no_write (env : Env E) (steps : List Step) (e : Err E)
    (h : (run_upgrade env steps).2 = .error e) :
    ∀ sv dv, Event.writeVersions sv dv ∉ (run_upgrade env steps).1 := by
  intro sv dv
  cases hdb : env.db with
  | tableMissing => rw [run_upgrade_tableMissing env steps hdb]; simp
  | otherError => rw [run_upgrade_otherError env steps hdb]; simp
  | records v =>
    cases hc : env.code_db_version with
    | none => rw [run_upgrade_noCode env steps hdb hc]; simp
    | some cdb =>
      cases v with
      | none => rw [run_upgrade_uninitialized env steps hdb hc]; simp
      | some running =>
        by_cases he : running.db_version = cdb
        · rw [run_upgrade_equal env steps hdb hc he]; simp
        · cases hdo : do_upgrade env.fnResult steps running
            ⟨env.code_service_version, cdb⟩ with
          | mk tr r =>
            cases r with
            | error e2 =>
              rw [run_upgrade_do_fail env steps hdb hc he hdo]
              simp
            | ok rc =>
              have hrc := do_upgrade_rc_true _ _ _ _ _ _ hdo
              subst hrc
              rw [run_upgrade_do_ok env steps hdb hc he hdo] at h
              simp at h

/-- An all-successful environment of migration functions. -/
def envAllOkUnit : FnId → Option Unit := fun _ => none

/-- An ascending but non-contiguous step table used to refute C1 as stated. -/
def gappySteps : List Step :=
  [ ((⟨0,0,1⟩, ⟨0,0,2⟩), ["f0"]),
    ((⟨0,0,5⟩, ⟨0,0,9⟩), ["f1"]) ]

/-- C1 (counterexample): for the step table
`[(0.0.1, 0.0.2) -> [f0], (0.0.5, 0.0.9) -> [f1]]`, which is declared in
strictly ascending order, upgrading from `a = 0.0.1` to `c = 0.0.3` executes
`f1`, although its step's `fromVersion = 0.0.5` is at or after `c`, so the
claim "no step whose range starts at or after c is executed" is false as
stated. -/
theorem claim1_counterexample :
    SV.ltb ⟨0,0,1⟩ ⟨0,0,2⟩ = true ∧ SV.ltb ⟨0,0,2⟩ ⟨0,0,5⟩ = true ∧
    SV.ltb ⟨0,0,5⟩ ⟨0,0,9⟩ = true ∧
    SV.ltb ⟨0,0,1⟩ ⟨0,0,3⟩ = true ∧
    SV.leb ⟨0,0,3⟩ ⟨0,0,5⟩ = true ∧
    do_upgrade envAllOkUnit gappySteps ⟨⟨1,0,0⟩, ⟨0,0,1⟩⟩ ⟨⟨1,0,0⟩, ⟨0,0,3⟩⟩ =
      (["f0", "f1"], .ok true) :=
  ⟨by decide, by decide, by decide, by decide, by decide, by rfl⟩

/-- C1 (amended): for every step table forming a contiguous ascending chain
whose start is at or below the current version `a`, and every target `c` with
`a < c` such that neither `a` nor `c` lies strictly inside any step's range,
`do_upgrade` from `a` to `c` executes exactly the steps whose ranges lie
within `[a, c]` (those with `a <= fromVersion` and `toVersion <= c`), in
declared order, skipping every step whose `toVersion <= `the advancing cursor
and stopping once the cursor reaches the target; no step with
`toVersion <= a` and no step with `fromVersion >= c` is executed. -/
theorem claim1_exact_step_selection (E : Type) (env : FnId → Option E)
    (steps : List Step) (v : SV) (inplace incode : VersionRec)
    (henv : ∀ f, env f = none)
    (hchain : chainFrom v steps = true)
    (hva : SV.leb v inplace.db_version = true)
    (hsa : straddleFree inplace.db_version steps = true)
    (hsc : straddleFree incode.db_version steps = true)
    (hac : SV.ltb inplace.db_version incode.db_version = true) :
    do_upgrade env steps inplace incode =
      ((steps.filter (fun s => SV.leb inplace.db_version s.1.1 &&
          SV.leb s.1.2 incode.db_version)).flatMap (fun s => s.2),
       .ok true) := by
  have h1 : SV.ltb incode.db_version inplace.db_version = false := SV.ltb_asymm hac
  have h2 : inplace.db_version ≠ incode.db_version := SV.ltb_ne hac
  obtain ⟨ht, herr⟩ := runSteps_chain_trace env incode.db_version henv steps v
    inplace.db_version hchain hva hsa hsc
  rw [do_upgrade_run env steps h1 h2, herr, ht]

/-- C1 (witness): the spec's own scenario — the declared `upgrade_functions`
table, upgrading from `0.0.3` to `0.0.5` runs exactly the last-but-one two
steps, in order. -/
theorem claim1_witness :
    chainFrom ⟨0,0,1⟩ upgrade_functions = true ∧
    SV.leb ⟨0,0,1⟩ ⟨0,0,3⟩ = true ∧
    straddleFree ⟨0,0,3⟩ upgrade_functions = true ∧
    straddleFree ⟨0,0,5⟩ upgrade_functions = true ∧
    SV.ltb ⟨0,0,3⟩ ⟨0,0,5⟩ = true ∧
    do_upgrade envAllOkUnit upgrade_functions ⟨⟨1,0,0⟩, ⟨0,0,3⟩⟩
        ⟨⟨1,0,0⟩, ⟨0,0,5⟩⟩ =
      (["db_upgrade_003_004", "db_upgrade_004_005"], .ok true) := by
  refine ⟨by decide, by decide, by decide, by decide, by decide, ?_⟩
  have h := claim1_exact_step_selection Unit envAllOkUnit upgrade_functions
    ⟨0,0,1⟩ ⟨⟨1,0,0⟩, ⟨0,0,3⟩⟩ ⟨⟨1,0,0⟩, ⟨0,0,5⟩⟩ (fun _ => rfl) (by decide)
    (by decide) (by decide) (by decide) (by decide)
  rw [h]
  rfl

/-- C2: if the migration function at index `k` of a step's function chain
raises, the later functions of that step and every function of every later
step never execute, the raised error is propagated unchanged, and whenever a
`run_upgrade` call raises, the persisted version record is never written
(`do_upgrade_success` is not reached). -/
theorem claim2_partial_failure_aborts (E : Type) :
    (∀ (env : FnId → Option E) (tgt cur : SV) (steps1 steps2 : List Step)
        (rf rt : SV) (pre post : List FnId) (fk : FnId) (e : E),
      (∀ f ∈ pre, env f = none) → env fk = some e →
      (runSteps env tgt cur steps1).err = none →
      SV.ltb (runSteps env tgt cur steps1).cursor tgt = true →
      SV.ltb (runSteps env tgt cur steps1).cursor rt = true →
      runSteps env tgt cur
          (steps1 ++ (((rf, rt), pre ++ fk :: post) :: steps2)) =
        ⟨(runSteps env tgt cur steps1).trace ++ (pre ++ [fk]),
         (runSteps env tgt cur steps1).cursor, some e⟩) ∧
    (∀ (env : Env E) (steps : List Step) (e : Err E),
      (run_upgrade env steps).2 = .error e →
      ∀ sv dv, Event.writeVersions sv dv ∉ (run_upgrade env steps).1) := by
  constructor
  · intro env tgt cur steps1 steps2 rf rt pre post fk e hpre hfk herr hcur hto
    rw [runSteps_append_ok env tgt steps1 _ cur herr]
    have hb : ¬ SV.leb tgt (runSteps env tgt cur steps1).cursor = true := by
      rw [SV.leb_iff, hcur]
      simp
    have hs : ¬ SV.leb rt (runSteps env tgt cur steps1).cursor = true := by
      rw [SV.leb_iff, hto]
      simp
    rw [runSteps_cons_fail env hb hs rf (runFns_fail env pre fk post hpre hfk)]
  · intro env steps e h
    exact run_upgrade_error_no_write env steps e h

/-- Migration-function environment in which `gb` raises and every other
function succeeds. -/
def envFailGb : FnId → Option Unit :=
  fun f => if f = "gb" then some () else none

/-- Database environment in which the anchore version table is missing. -/
def envTableMissing : Env Unit :=
  ⟨⟨1,0,0⟩, some ⟨0,0,6⟩, .tableMissing, fun _ => none⟩

/-- C2 (witness): with `gb` raising in the chain `[ga, gb, gc]` of the step
`(0.0.1, 0.0.2)`, only `ga` and `gb` run, `gc` and the whole later step never
run, the cursor stays at `0.0.1`, and a raising `run_upgrade` writes no
version record. -/
theorem claim2_witness :
    runSteps envFailGb ⟨0,0,3⟩ ⟨0,0,1⟩
        ([] ++ (((⟨0,0,1⟩, ⟨0,0,2⟩), ["ga"] ++ "gb" :: ["gc"]) ::
          [((⟨0,0,2⟩, ⟨0,0,3⟩), ["gd"])])) =
      ⟨(runSteps envFailGb ⟨0,0,3⟩ ⟨0,0,1⟩ []).trace ++ (["ga"] ++ ["gb"]),
       (runSteps envFailGb ⟨0,0,3⟩ ⟨0,0,1⟩ []).cursor, some ()⟩ ∧
    Event.writeVersions ⟨9,9,9⟩ ⟨9,9,9⟩ ∉
      (run_upgrade envTableMissing upgrade_functions).1 :=
  ⟨(claim2_partial_failure_aborts Unit).1 envFailGb ⟨0,0,3⟩ ⟨0,0,1⟩ [] _
      ⟨0,0,1⟩ ⟨0,0,2⟩ ["ga"] ["gc"] "gb" () (by decide) (by decide) rfl
      (by decide) (by decide),
   (claim2_partial_failure_aborts Unit).2 envTableMissing upgrade_functions
      .tableNotFound (by rfl) ⟨9,9,9⟩ ⟨9,9,9⟩⟩

/-- C3: whenever the in-place (running) db version is strictly greater than
the code (target) db version, `do_upgrade` raises the downgrade error with no
migration function executed, and `run_upgrade` propagates it with no write to
the version record. -/
theorem claim3_downgrade_rejected (E : Type) :
    (∀ (env : FnId → Option E) (steps : List Step)
        (inplace incode : VersionRec),
      SV.ltb incode.db_version inplace.db_version = true →
      do_upgrade env steps inplace incode = ([], .error .downgrade)) ∧
    (∀ (env : Env E) (steps : List Step) (running : VersionRec) (cdb : SV),
      env.db = .records (some running) →
      env.code_db_version = some cdb →
      SV.ltb cdb running.db_version = true →
      run_upgrade env steps =
        ([Event.acquireLock upgrade_lock_namespace my_module_upgrade_id,
          Event.releaseLock upgrade_lock_namespace my_module_upgrade_id],
         .error .downgrade)) := by
  constructor
  · intro env steps inplace incode h
    exact do_upgrade_downgrade env steps h
  · intro env steps running cdb hdb hc h
    have he : running.db_version ≠ cdb := fun hcontra => by
      rw [hcontra] at h
      rw [SV.ltb_irrefl] at h
      cases h
    have hdo : do_upgrade env.fnResult steps running
        ⟨env.code_service_version, cdb⟩ = ([], .error .downgrade) :=
      do_upgrade_downgrade env.fnResult steps h
    rw [run_upgrade_do_fail env steps hdb hc he hdo]
    rfl

/-- Database environment matching the spec scenario: running db version
`0.0.6`, code db version `0.0.5`. -/
def envDowngrade : Env Unit :=
  ⟨⟨1,0,0⟩, some ⟨0,0,5⟩, .records (some ⟨⟨1,0,0⟩, ⟨0,0,6⟩⟩), fun _ => none⟩

/-- C3 (witness): the spec scenario — running `0.0.6`, code `0.0.5` — raises
the downgrade error with no migration executed and no write. -/
theorem claim3_witness :
    do_upgrade envAllOkUnit upgrade_functions ⟨⟨1,0,0⟩, ⟨0,0,6⟩⟩
        ⟨⟨1,0,0⟩, ⟨0,0,5⟩⟩ = ([], .error .downgrade) ∧
    run_upgrade envDowngrade upgrade_functions =
      ([Event.acquireLock upgrade_lock_namespace my_module_upgrade_id,
        Event.releaseLock upgrade_lock_namespace my_module_upgrade_id],
       .error .downgrade) :=
  ⟨(claim3_downgrade_rejected Unit).1 envAllOkUnit upgrade_functions
      ⟨⟨1,0,0⟩, ⟨0,0,6⟩⟩ ⟨⟨1,0,0⟩, ⟨0,0,5⟩⟩ (by decide),
   (claim3_downgrade_rejected Unit).2 envDowngrade upgrade_functions
      ⟨⟨1,0,0⟩, ⟨0,0,6⟩⟩ ⟨0,0,5⟩ rfl rfl (by decide)⟩

/-- C4 (behaviour at the failing input): when the code-declared db version
equals the running db version, `run_upgrade` performs no write and runs no
migration function, but returns Python `None` (modelled `Except.ok none`) —
not the boolean `False` its docstring contract promises for "no upgrade
necessary". -/
theorem claim4_equal_versions_noop (E : Type) (env : Env E) (steps : List Step)
    (running : VersionRec) (cdb : SV)
    (hdb : env.db = .records (some running))
    (hc : env.code_db_version = some cdb)
    (he : running.db_version = cdb) :
    run_upgrade env steps =
      ([Event.acquireLock upgrade_lock_namespace my_module_upgrade_id,
        Event.releaseLock upgrade_lock_namespace my_module_upgrade_id],
       .ok none) ∧
    (run_upgrade env steps).2 ≠ .ok (some false) := by
  have h := run_upgrade_equal env steps hdb hc he
  refine ⟨h, ?_⟩
  rw [h]
  simp

/-- Database environment with matching code and running db versions
(`0.0.6`). -/
def envVersionsMatch : Env Unit :=
  ⟨⟨1,0,0⟩, some ⟨0,0,6⟩, .records (some ⟨⟨1,0,0⟩, ⟨0,0,6⟩⟩), fun _ => none⟩

/-- C4 (witness): at matching versions `0.0.6`, `run_upgrade` only acquires
and releases the lock and returns `None`. -/
theorem claim4_witness :
    run_upgrade envVersionsMatch upgrade_functions =
      ([Event.acquireLock upgrade_lock_namespace my_module_upgrade_id,
        Event.releaseLock upgrade_lock_namespace my_module_upgrade_id],
       .ok none) ∧
    (run_upgrade envVersionsMatch upgrade_functions).2 ≠ .ok (some false) :=
  claim4_equal_versions_noop Unit envVersionsMatch upgrade_functions
    ⟨⟨1,0,0⟩, ⟨0,0,6⟩⟩ ⟨0,0,6⟩ rfl rfl rfl

/-- C5: when the target db version is strictly beyond the `toVersion` of every
declared step and every migration function succeeds, the loop falls through
with its cursor strictly short of the target, yet `run_upgrade` still writes
the version record with the full target version and reports the upgrade as
successful. -/
theorem claim5_target_beyond_table (E : Type) (env : Env E)
    (steps : List Step) (running : VersionRec) (cdb : SV)
    (hdb : env.db = .records (some running))
    (hc : env.code_db_version = some cdb)
    (henv : ∀ f, env.fnResult f = none)
    (hlt : SV.ltb running.db_version cdb = true)
    (hbeyond : ∀ s ∈ steps, SV.ltb s.1.2 cdb = true) :
    run_upgrade env steps =
      (Event.acquireLock upgrade_lock_namespace my_module_upgrade_id ::
        (runSteps env.fnResult cdb running.db_version steps).trace.map
          Event.runFn ++
        [Event.writeVersions env.code_service_version cdb,
         Event.releaseLock upgrade_lock_namespace my_module_upgrade_id],
       .ok (some true)) ∧
    SV.ltb (runSteps env.fnResult cdb running.db_version steps).cursor cdb
      = true := by
  have herr : (runSteps env.fnResult cdb running.db_version steps).err = none :=
    runSteps_ok_err env.fnResult cdb steps running.db_version henv
  have hne : running.db_version ≠ cdb := SV.ltb_ne hlt
  have hdo : do_upgrade env.fnResult steps running
      ⟨env.code_service_version, cdb⟩ =
      ((runSteps env.fnResult cdb running.db_version steps).trace, .ok true) := by
    rw [do_upgrade_run env.fnResult steps (SV.ltb_asymm hlt) hne, herr]
  refine ⟨run_upgrade_do_ok env steps hdb hc hne hdo, ?_⟩
  exact runSteps_cursor_lt env.fnResult cdb steps running.db_version hlt hbeyond

/-- Database environment whose target db version `0.0.9` lies strictly beyond
the last declared step `(0.0.5, 0.0.6)`. -/
def envTargetBeyond : Env Unit :=
  ⟨⟨1,0,0⟩, some ⟨0,0,9⟩, .records (some ⟨⟨1,0,0⟩, ⟨0,0,3⟩⟩), fun _ => none⟩

/-- C5 (witness): upgrading from `0.0.3` towards `0.0.9` over the declared
table runs the last three steps, stops at cursor `0.0.6 < 0.0.9`, yet writes
`0.0.9` and reports success. -/
theorem claim5_witness :
    run_upgrade envTargetBeyond upgrade_functions =
      (Event.acquireLock upgrade_lock_namespace my_module_upgrade_id ::
        (runSteps envTargetBeyond.fnResult ⟨0,0,9⟩ ⟨0,0,3⟩
            upgrade_functions).trace.map Event.runFn ++
        [Event.writeVersions ⟨1,0,0⟩ ⟨0,0,9⟩,
         Event.releaseLock upgrade_lock_namespace my_module_upgrade_id],
       .ok (some true)) ∧
    SV.ltb (runSteps envTargetBeyond.fnResult ⟨0,0,9⟩ ⟨0,0,3⟩
        upgrade_functions).cursor ⟨0,0,9⟩ = true :=
  claim5_target_beyond_table Unit envTargetBeyond upgrade_functions
    ⟨⟨1,0,0⟩, ⟨0,0,3⟩⟩ ⟨0,0,9⟩ rfl rfl (fun _ => rfl) (by decide) (by decide)

/-- C6 (counterexample): with the version table absent, `run_upgrade` raises
`TableNotFoundError` (the error propagates to the caller) instead of
returning normally as the claim states. -/
theorem claim6_counterexample :
    run_upgrade envTableMissing upgrade_functions =
      ([Event.acquireLock upgrade_lock_namespace my_module_upgrade_id,
        Event.releaseLock upgrade_lock_namespace my_module_upgrade_id],
       .error .tableNotFound) := by
  rfl

/-- C6 (amended): when the version table is absent, `run_upgrade` raises the
distinct `TableNotFoundError` (propagated to the caller, with no migration
executed and no write); the benign normal return happens instead when the
table is readable but holds no version record. -/
theorem claim6_table_missing_raises (E : Type) (env : Env E)
    (steps : List Step) (h : env.db = .tableMissing) :
    run_upgrade env steps =
      ([Event.acquireLock upgrade_lock_namespace my_module_upgrade_id,
        Event.releaseLock upgrade_lock_namespace my_module_upgrade_id],
       .error .tableNotFound) :=
  run_upgrade_tableMissing env steps h

/-- C6 (witness): the concrete table-missing environment raises
`TableNotFoundError` having only acquired and released the lock. -/
theorem claim6_witness :
    run_upgrade envTableMissing upgrade_functions =
      ([Event.acquireLock upgrade_lock_namespace my_module_upgrade_id,
        Event.releaseLock upgrade_lock_namespace my_module_upgrade_id],
       .error .tableNotFound) :=
  claim6_table_missing_raises Unit envTableMissing upgrade_functions rfl

/-- Environment in which the code does not declare a db version but the
version table is readable. -/
def envNoCodeVersion : Env Unit :=
  ⟨⟨1,0,0⟩, none, .records (some ⟨⟨1,0,0⟩, ⟨0,0,5⟩⟩), fun _ => none⟩

/-- C7 (counterexample): with `CodeVersions.dbVersion` absent, `run_upgrade`
does fail with the configuration error, but only after acquiring the advisory
lock: the acquire event is in the trace, refuting "before acquiring the
advisory lock". -/
theorem claim7_counterexample :
    run_upgrade envNoCodeVersion upgrade_functions =
      ([Event.acquireLock upgrade_lock_namespace my_module_upgrade_id,
        Event.releaseLock upgrade_lock_namespace my_module_upgrade_id],
       .error .noCodeVersion) ∧
    Event.acquireLock upgrade_lock_namespace my_module_upgrade_id ∈
      (run_upgrade envNoCodeVersion upgrade_functions).1 :=
  ⟨by rfl, by decide⟩

/-- C7 (amended): when the code does not declare a target db version and the
version table is readable, `run_upgrade` fails with the fatal configuration
error before any migration function runs and before any write — though after
acquiring (and then releasing) the advisory lock, which `upgrade_context`
takes before the check. -/
theorem claim7_no_code_version (E : Type) (env : Env E) (steps : List Step)
    (v : Option VersionRec) (hdb : env.db = .records v)
    (hc : env.code_db_version = none) :
    run_upgrade env steps =
      ([Event.acquireLock upgrade_lock_namespace my_module_upgrade_id,
        Event.releaseLock upgrade_lock_namespace my_module_upgrade_id],
       .error .noCodeVersion) :=
  run_upgrade_noCode env steps hdb hc

/-- C7 (witness): the concrete no-code-version environment fails with the
configuration error, the lock having been acquired and released. -/
theorem claim7_witness :
    run_upgrade envNoCodeVersion upgrade_functions =
      ([Event.acquireLock upgrade_lock_namespace my_module_upgrade_id,
        Event.releaseLock upgrade_lock_namespace my_module_upgrade_id],
       .error .noCodeVersion) :=
  claim7_no_code_version Unit envNoCodeVersion upgrade_functions
    (some ⟨⟨1,0,0⟩, ⟨0,0,5⟩⟩) rfl rfl

/-- Boolean test for the version-record upsert event. -/
def isWriteEvent : Event → Bool :=
  fun ev => match ev with
  | .writeVersions _ _ => true
  | _ => false

theorem filter_isWrite_map_runFn (tr : List FnId) :
    (tr.map Event.runFn).filter isWriteEvent = [] := by
  induction tr with
  | nil => rfl
  | cons f fs ih => simp [isWriteEvent, ih]

/-- Helper: `do_upgrade` raises only the downgrade error or a re-raised
migration-function error. -/
theorem do_upgrade_error_kinds (env : FnId → Option E) (steps : List Step)
    (inplace incode : VersionRec) (tr : List FnId) (e : Err E)
    (h : do_upgrade env steps inplace incode = (tr, .error e)) :
    e = .downgrade ∨ ∃ e0, e = .stepError e0 := by
  by_cases hd : SV.ltb incode.db_version inplace.db_version = true
  · rw [do_upgrade_downgrade env steps hd] at h
    cases h
    exact Or.inl rfl
  · rw [Bool.not_eq_true] at hd
    by_cases he : inplace.db_version = incode.db_version
    · rw [do_upgrade_equal env steps he] at h
      cases h
    · rw [do_upgrade_run env steps hd he] at h
      cases herr : (runSteps env incode.db_version inplace.db_version steps).err with
      | some e0 =>
        rw [herr] at h
        cases h
        exact Or.inr ⟨e0, rfl⟩
      | none =>
        rw [herr] at h
        cases h

/-- C8: in every `run_upgrade` execution the version record is written at most
once; any write that occurs is the single upsert of exactly the code-declared
service and db versions, happens only on the successful path (after every
selected migration function event), and is the last event before the lock
release. -/
theorem claim8_single_final_write (E : Type) (env : Env E)
    (steps : List Step) :
    ((run_upgrade env steps).1.filter isWriteEvent).length ≤ 1 ∧
    (∀ sv dv, Event.writeVersions sv dv ∈ (run_upgrade env steps).1 →
      sv = env.code_service_version ∧ env.code_db_version = some dv ∧
      (run_upgrade env steps).2 = .ok (some true) ∧
      ∃ tr : List FnId, (run_upgrade env steps).1 =
        Event.acquireLock upgrade_lock_namespace my_module_upgrade_id ::
          tr.map Event.runFn ++
          [Event.writeVersions sv dv,
           Event.releaseLock upgrade_lock_namespace my_module_upgrade_id]) := by
  cases hdb : env.db with
  | tableMissing =>
    rw [run_upgrade_tableMissing env steps hdb]
    constructor
    · simp [isWriteEvent]
    · intro sv dv hmem
      simp at hmem
  | otherError =>
    rw [run_upgrade_otherError env steps hdb]
    constructor
    · simp [isWriteEvent]
    · intro sv dv hmem
      simp at hmem
  | records v =>
    cases hc : env.code_db_version with
    | none =>
      rw [run_upgrade_noCode env steps hdb hc]
      constructor
      · simp [isWriteEvent]
      · intro sv dv hmem
        simp at hmem
    | some cdb =>
      cases v with
      | none =>
        rw [run_upgrade_uninitialized env steps hdb hc]
        constructor
        · simp [isWriteEvent]
        · intro sv dv hmem
          simp at hmem
      | some running =>
        by_cases he : running.db_version = cdb
        · rw [run_upgrade_equal env steps hdb hc he]
          constructor
          · simp [isWriteEvent]
          · intro sv dv hmem
            simp at hmem
        · cases hdo : do_upgrade env.fnResult steps running
            ⟨env.code_service_version, cdb⟩ with
          | mk tr r =>
            cases r with
            | error e2 =>
              rw [run_upgrade_do_fail env steps hdb hc he hdo]
              constructor
              · simp [List.filter_append, filter_isWrite_map_runFn, isWriteEvent,
                  List.filter_cons]
              · intro sv dv hmem
                simp at hmem
            | ok rc =>
              have hrc := do_upgrade_rc_true _ _ _ _ _ _ hdo
              subst hrc
              rw [run_upgrade_do_ok env steps hdb hc he hdo]
              constructor
              · simp [List.filter_append, filter_isWrite_map_runFn, isWriteEvent,
                  List.filter_cons]
              · intro sv dv hmem
                simp at hmem
                obtain ⟨hsv, hdv⟩ := hmem
                subst hsv
                subst hdv
                exact ⟨rfl, rfl, rfl, ⟨tr, rfl⟩⟩

/-- Database environment performing a one-step successful upgrade from
`0.0.5` to `0.0.6`. -/
def envOneStep : Env Unit :=
  ⟨⟨1,0,0⟩, some ⟨0,0,6⟩, .records (some ⟨⟨1,0,0⟩, ⟨0,0,5⟩⟩), fun _ => none⟩

/-- C8 (witness): in the concrete successful run from `0.0.5` to `0.0.6`, the
single write is exactly the code versions and sits between the migration
events and the lock release. -/
theorem claim8_witness :
    ((run_upgrade envOneStep upgrade_functions).1.filter isWriteEvent).length ≤ 1 ∧
    (⟨1,0,0⟩ : SV) = envOneStep.code_service_version ∧
    envOneStep.code_db_version = some ⟨0,0,6⟩ ∧
    (run_upgrade envOneStep upgrade_functions).2 = .ok (some true) ∧
    ∃ tr : List FnId, (run_upgrade envOneStep upgrade_functions).1 =
      Event.acquireLock upgrade_lock_namespace my_module_upgrade_id ::
        tr.map Event.runFn ++
        [Event.writeVersions ⟨1,0,0⟩ ⟨0,0,6⟩,
         Event.releaseLock upgrade_lock_namespace my_module_upgrade_id] :=
  ⟨(claim8_single_final_write Unit envOneStep upgrade_functions).1,
   (claim8_single_final_write Unit envOneStep upgrade_functions).2
     ⟨1,0,0⟩ ⟨0,0,6⟩ (by decide)⟩

/-- C9: `do_upgrade` returns `True` on every non-raising path, so the
`run_upgrade` branch raising "Upgrade routine from module returned false" is
unreachable: every `run_upgrade` call raises, returns the no-op `None`, or
returns `True` from the success-persist path. -/
theorem claim9_returned_false_unreachable (E : Type) :
    (∀ (env : FnId → Option E) (steps : List Step)
        (inplace incode : VersionRec) (tr : List FnId) (rc : Bool),
      do_upgrade env steps inplace incode = (tr, .ok rc) → rc = true) ∧
    (∀ (env : Env E) (steps : List Step),
      (run_upgrade env steps).2 ≠ .error .moduleReturnedFalse) ∧
    (∀ (env : Env E) (steps : List Step),
      (∃ e, (run_upgrade env steps).2 = .error e) ∨
      (run_upgrade env steps).2 = .ok none ∨
      (run_upgrade env steps).2 = .ok (some true)) := by
  refine ⟨do_upgrade_rc_true, ?_, ?_⟩
  · intro env steps hcontra
    cases hdb : env.db with
    | tableMissing =>
      rw [run_upgrade_tableMissing env steps hdb] at hcontra
      cases hcontra
    | otherError =>
      rw [run_upgrade_otherError env steps hdb] at hcontra
      cases hcontra
    | records v =>
      cases hc : env.code_db_version with
      | none =>
        rw [run_upgrade_noCode env steps hdb hc] at hcontra
        cases hcontra
      | some cdb =>
        cases v with
        | none =>
          rw [run_upgrade_uninitialized env steps hdb hc] at hcontra
          cases hcontra
        | some running =>
          by_cases he : running.db_version = cdb
          · rw [run_upgrade_equal env steps hdb hc he] at hcontra
            cases hcontra
          · cases hdo : do_upgrade env.fnResult steps running
              ⟨env.code_service_version, cdb⟩ with
            | mk tr r =>
              cases r with
              | error e2 =>
                rw [run_upgrade_do_fail env steps hdb hc he hdo] at hcontra
                have hek := do_upgrade_error_kinds env.fnResult steps running
                  ⟨env.code_service_version, cdb⟩ tr e2 hdo
                simp only at hcontra
                injection hcontra with h2
                rcases hek with h3 | ⟨e0, h3⟩ <;> rw [h3] at h2 <;> cases h2
              | ok rc =>
                have hrc := do_upgrade_rc_true _ _ _ _ _ _ hdo
                subst hrc
                rw [run_upgrade_do_ok env steps hdb hc he hdo] at hcontra
                cases hcontra
  · intro env steps
    cases hdb : env.db with
    | tableMissing =>
      rw [run_upgrade_tableMissing env steps hdb]
      exact Or.inl ⟨.tableNotFound, rfl⟩
    | otherError =>
      rw [run_upgrade_otherError env steps hdb]
      exact Or.inl ⟨.dbError, rfl⟩
    | records v =>
      cases hc : env.code_db_version with
      | none =>
        rw [run_upgrade_noCode env steps hdb hc]
        exact Or.inl ⟨.noCodeVersion, rfl⟩
      | some cdb =>
        cases v with
        | none =>
          rw [run_upgrade_uninitialized env steps hdb hc]
          exact Or.inr (Or.inl rfl)
        | some running =>
          by_cases he : running.db_version = cdb
          · rw [run_upgrade_equal env steps hdb hc he]
            exact Or.inr (Or.inl rfl)
          · cases hdo : do_upgrade env.fnResult steps running
              ⟨env.code_service_version, cdb⟩ with
            | mk tr r =>
              cases r with
              | error e2 =>
                rw [run_upgrade_do_fail env steps hdb hc he hdo]
                exact Or.inl ⟨e2, rfl⟩
              | ok rc =>
                have hrc := do_upgrade_rc_true _ _ _ _ _ _ hdo
                subst hrc
                rw [run_upgrade_do_ok env steps hdb hc he hdo]
                exact Or.inr (Or.inr rfl)

/-- C9 (witness): the concrete one-step upgrade returns `True`, and its
`run_upgrade` result is not the returned-false error. -/
theorem claim9_witness :
    (true = true) ∧
    (run_upgrade envOneStep upgrade_functions).2 ≠
      .error .moduleReturnedFalse ∧
    ((∃ e, (run_upgrade envOneStep upgrade_functions).2 = .error e) ∨
      (run_upgrade envOneStep upgrade_functions).2 = .ok none ∨
      (run_upgrade envOneStep upgrade_functions).2 = .ok (some true)) :=
  ⟨(claim9_returned_false_unreachable Unit).1 envAllOkUnit upgrade_functions
      ⟨⟨1,0,0⟩, ⟨0,0,5⟩⟩ ⟨⟨1,0,0⟩, ⟨0,0,6⟩⟩ ["db_upgrade_005_006"] true (by rfl),
   (claim9_returned_false_unreachable Unit).2.1 envOneStep upgrade_functions,
   (claim9_returned_false_unreachable Unit).2.2 envOneStep upgrade_functions⟩

/-- Helper: the protected body returns a value only when the wrapped function
returned that value. -/
theorem protected_body_ok_wrapped (env : AuthEnv α) (a : α)
    (h : protected_body env = .ok a) : env.wrapped = .ok a := by
  obtain ⟨ctx, authc, bindExc, authz, wrapped⟩ := env
  cases ctx with
  | some k => cases h
  | none =>
    cases authc with
    | raises => cases h
    | returnsNone => cases h
    | identityNoUsername => cases h
    | identityWith u =>
      cases bindExc with
      | some k => cases h
      | none =>
        cases authz with
        | some k => cases k <;> cases h
        | none => exact h

/-- C10: the `requires` wrapper never propagates an exception: every
invocation returns either the wrapped function's own result or an HTTP error
response, whose status code is exactly 403 for a propagated
`UnauthorizedError`, 401 for a propagated `UnauthenticatedError` (which is
what every failure during authentication is re-raised as), and 500 for every
other exception. -/
theorem claim10_wrapper_exception_ladder (α : Type) (env : AuthEnv α) :
    ((∃ a, inner_wrapper env = .value a ∧ env.wrapped = .ok a) ∨
      inner_wrapper env = .httpError 403 ∨
      inner_wrapper env = .httpError 401 ∨
      inner_wrapper env = .httpError 500) ∧
    (∀ k, protected_body env = .exc k → inner_wrapper env = excToResponse k) ∧
    (excToResponse .unauthorized = (.httpError 403 : WrapperResult α) ∧
      excToResponse .unauthenticated = (.httpError 401 : WrapperResult α) ∧
      excToResponse .otherExc = (.httpError 500 : WrapperResult α)) ∧
    (env.ctxEnter = none →
      (env.authc = .raises ∨ env.authc = .returnsNone ∨
        env.authc = .identityNoUsername) →
      inner_wrapper env = .httpError 401) := by
  refine ⟨?_, ?_, ⟨rfl, rfl, rfl⟩, ?_⟩
  · cases hpb : protected_body env with
    | ok a =>
      refine Or.inl ⟨a, ?_, protected_body_ok_wrapped env a hpb⟩
      simp [inner_wrapper, hpb]
    | exc k =>
      have hw : inner_wrapper env = excToResponse k := by
        simp [inner_wrapper, hpb]
      cases k with
      | unauthorized => exact Or.inr (Or.inl hw)
      | unauthenticated => exact Or.inr (Or.inr (Or.inl hw))
      | otherExc => exact Or.inr (Or.inr (Or.inr hw))
  · intro k h
    simp [inner_wrapper, h]
  · intro hctx hauthc
    obtain ⟨ctx, authc, bindExc, authz, wrapped⟩ := env
    simp only at hctx hauthc
    subst hctx
    rcases hauthc with h | h | h <;> subst h <;> rfl

/-- An invocation whose authentication raises (bad credentials). -/
def envAuthcRaises : AuthEnv Nat := ⟨none, .raises, none, none, .ok 7⟩

/-- C10 (witness): an invocation with failing authentication is answered with
the 401 response, and the ladder maps a propagated `UnauthorizedError` of a
successful-authentication invocation to the 403 response. -/
theorem claim10_witness :
    inner_wrapper envAuthcRaises = .httpError 401 ∧
    ((∃ a, inner_wrapper envAuthcRaises = .value a ∧
        envAuthcRaises.wrapped = .ok a) ∨
      inner_wrapper envAuthcRaises = .httpError 403 ∨
      inner_wrapper envAuthcRaises = .httpError 401 ∨
      inner_wrapper envAuthcRaises = .httpError 500) ∧
    inner_wrapper envAuthcRaises = excToResponse .unauthenticated :=
  ⟨(claim10_wrapper_exception_ladder Nat envAuthcRaises).2.2.2 rfl (Or.inl rfl),
   (claim10_wrapper_exception_ladder Nat envAuthcRaises).1,
   (claim10_wrapper_exception_ladder Nat envAuthcRaises).2.1 .unauthenticated rfl⟩

end Anchore
